import Mathlib

/-!
# Verification of the agent-rules template scaffolding core

Shallow embedding of the adapter-driven template transformation and merge
engine of the `agent-rules` repository:

* the JSON MCP-server merge of `BaseAdapter.processMcpConfiguration`
  (src/adapters/base-adapter.ts),
* the CLAUDE.md import merge of
  `ClaudeCodeAdapter.addImportsToClaudeContent`
  (src/adapters/claude-code-adapter.ts),
* the path construction/validation discipline (`validateTargetPath`,
  shared by all adapters),
* the frontmatter transformation of `CursorAdapter`
  (src/adapters/cursor-adapter.ts) and the frontmatter stripping of
  `GeminiAdapter`,
* the per-file batch copy loop (`copyTemplateFiles` / `copyTemplateFile`),
* the `AdapterRegistry` and the `scaffoldAiAppInstructions` entry point
  (src/main.ts).

JavaScript strings are modelled as Lean `String`s (operations implemented
over `String.data : List Char`, restricted to the effective ASCII range of the code
behaviour), JSON documents as ordered association lists (mirroring
JavaScript object key order), and the filesystem as explicit maps/lists
threaded through the functions.  Exceptions are modelled with
`Except`/`Option`.
-/

namespace AgentRules

/-! ## JSON documents

`JSON.parse` produces JavaScript objects; the merge code only inspects
whether a value is a non-array object (a typeof-object test excluding arrays, guarded by truthiness, so `null` and arrays fail the
test).  We model a JSON value as either an object — an ordered list of
key/value fields, mirroring the insertion-ordered string keys of JavaScript —
or an opaque non-object leaf (string, number, boolean, `null` or array,
none of which the merge ever looks inside). -/

inductive JsVal where
  | obj (fields : List (String × JsVal))
  | leaf (repr : String)

/-- Association-list field lookup: JavaScript property access
(`Reflect.get`) on an object with the given insertion-ordered fields.
Objects produced by `JSON.parse` have unique keys, so first-match lookup
agrees with property access. -/
def getKey : List (String × JsVal) → String → Option JsVal
  | [], _ => none
  | (k', v) :: rest, k => if k' = k then some v else getKey rest k

/-- `Object.hasOwn` on an object with the given fields. -/
def hasKeyB : List (String × JsVal) → String → Bool
  | [], _ => false
  | (k', _) :: rest, k => k' == k || hasKeyB rest k

/-- Value replacement used by object spread: an entry of `a` keeps its
key and position, but takes the value from `b` when `b` also has that key. -/
def overrideWith (b : List (String × JsVal)) (kv : String × JsVal) : String × JsVal :=
  match getKey b kv.1 with
  | some w => (kv.1, w)
  | none => kv

/-- JavaScript object spread `{...a, ...b}`: the keys of `a` in order
(values overridden by `b` on collision), followed by the keys of `b`
that are not in `a`, in the order of `b`. -/
def jsSpread (a b : List (String × JsVal)) : List (String × JsVal) :=
  a.map (overrideWith b) ++ b.filter (fun kv => !hasKeyB a kv.1)

/-- The keys the template-server extraction tries, in order
(base-adapter.ts line 113): the mergeKey of the adapter first, then the
conventional `mcpServers` when `mergeKey` differs from it. -/
def keysToTry (mergeKey : String) : List String :=
  if mergeKey == "mcpServers" then ["mcpServers"] else [mergeKey, "mcpServers"]

/-- The `for (const key of keysToTry)` loop of `processMcpConfiguration`
(base-adapter.ts lines 115–123): take the first tried key whose value is
a present, non-array object; a key that is absent, or present with a
non-object value, is skipped (no `break`).  Defaults to `{}`. -/
def firstObjAt (config : List (String × JsVal)) : List String → List (String × JsVal)
  | [] => []
  | k :: ks =>
    match getKey config k with
    | some (.obj f) => f
    | _ => firstObjAt config ks

/-- Extraction of the existing servers map (base-adapter.ts lines
137–143): the value under `mergeKey` when present and a non-array
object, else `{}`. -/
def extractServers (config : List (String × JsVal)) (mergeKey : String) :
    List (String × JsVal) :=
  match getKey config mergeKey with
  | some (.obj f) => f
  | _ => []

/-- The pure merge core of `BaseAdapter.processMcpConfiguration`
(base-adapter.ts lines 108–155): given the parsed template document and
the parsed existing target document, produce the merged document
`{...existingConfig, [mergeKey]: {...existingServers, ...templateServers}}`. -/
def mergeMcpConfigs (templateMcpConfig existingConfig : List (String × JsVal))
    (mergeKey : String) : List (String × JsVal) :=
  let templateServers := firstObjAt templateMcpConfig (keysToTry mergeKey)
  let existingServers := extractServers existingConfig mergeKey
  jsSpread existingConfig [(mergeKey, .obj (jsSpread existingServers templateServers))]

/-- The template-server extraction as the spec describes it, stated in its
own words for comparison with the `firstObjAt` loop of the code: "extract its
servers map by first trying `mergeKey`, then falling back to a
conventional default key name if `mergeKey` differs from it and the
primary key is absent" (or present but not an object). -/
def specTemplateServers (tmpl : List (String × JsVal)) (mergeKey : String) :
    List (String × JsVal) :=
  match getKey tmpl mergeKey with
  | some (.obj f) => f
  | _ =>
    if mergeKey ≠ "mcpServers" then
      match getKey tmpl "mcpServers" with
      | some (.obj f) => f
      | _ => []
    else []

/-! ## JavaScript string primitives

The merger and transformer code uses `toLowerCase`, `trim`, `includes`
and `join`; we model them over `String.data : List Char` (the
effective domain of the code is ASCII text). -/

/-- The JavaScript whitespace class (`trim`/`\s`), restricted to the
ASCII characters that can occur here: space, tab, line feed, carriage
return, vertical tab, form feed. -/
def jsWs (c : Char) : Bool :=
  c == ' ' || c == '\t' || c == '\n' || c == '\r' || c == '\x0b' || c == '\x0c'

/-- `String.prototype.toLowerCase` (ASCII case mapping). -/
def lowerStr (s : String) : String := String.mk (s.data.map Char.toLower)

/-- `String.prototype.trim` on a character list: drop whitespace from
both ends. -/
def trimChars (l : List Char) : List Char :=
  ((l.dropWhile jsWs).reverse.dropWhile jsWs).reverse

/-- `String.prototype.trim`. -/
def trimStr (s : String) : String := String.mk (trimChars s.data)

/-- `String.prototype.includes`: substring containment. -/
def includesStr (s sub : String) : Bool := decide (sub.data <:+: s.data)

/-- `Array.prototype.join(sep)`. -/
def joinWith (sep : String) : List String → String
  | [] => ""
  | [x] => x
  | x :: y :: xs => x ++ sep ++ joinWith sep (y :: xs)

/-- `true` iff the list is nonempty and its last character is not
JavaScript whitespace. -/
def endsNonWs (l : List Char) : Bool :=
  match l.getLast? with
  | some ch => !jsWs ch
  | none => false

/-! ## Node.js path and URI primitives

Models of `decodeURIComponent` and the `node:path` (posix) functions
the adapters use.  Strings are ASCII; the multi-byte
UTF-8 validation of `decodeURIComponent` is not modelled (a malformed percent escape is the
`URIError` case, modelled as `none`). -/

/-- `String.prototype.startsWith` (and Lean-side string-prefix test),
implemented structurally over characters. -/
def strStartsWith (s pre : String) : Bool := pre.data.isPrefixOf s.data

/-- `String.prototype.endsWith`, implemented structurally. -/
def strEndsWith (s suf : String) : Bool :=
  suf.data.reverse.isPrefixOf s.data.reverse

/-- Split a character list on `/` (the behaviour of
`String.prototype.split('/')`): `n` separators produce `n + 1` pieces,
empty pieces included. -/
def splitSlash : List Char → List (List Char)
  | [] => [[]]
  | '/' :: rest => [] :: splitSlash rest
  | c :: rest =>
    match splitSlash rest with
    | [] => [[c]]
    | seg :: segs => (c :: seg) :: segs

/-- Value of one hexadecimal digit, if it is one. -/
def hexVal (c : Char) : Option Nat :=
  if '0' ≤ c ∧ c ≤ '9' then some (c.toNat - 48)
  else if 'A' ≤ c ∧ c ≤ 'F' then some (c.toNat - 55)
  else if 'a' ≤ c ∧ c ≤ 'f' then some (c.toNat - 87)
  else none

/-- `decodeURIComponent` over characters: each `%` must be followed by
two hex digits, otherwise a `URIError` is thrown (`none`). -/
def percentDecodeChars : List Char → Option (List Char)
  | [] => some []
  | '%' :: c1 :: c2 :: rest => do
    let h1 ← hexVal c1
    let h2 ← hexVal c2
    let tail ← percentDecodeChars rest
    some (Char.ofNat (h1 * 16 + h2) :: tail)
  | '%' :: _ => none
  | c :: rest => do
    let tail ← percentDecodeChars rest
    some (c :: tail)

/-- `decodeURIComponent`. -/
def decodeURIComponent (s : String) : Option String :=
  (percentDecodeChars s.data).map String.mk

/-- The segment loop of `path.posix.normalize`: empty and `.` segments
are dropped; `..` pops the last kept segment, except that above the
root it is discarded for an absolute path and kept for a relative one.
The accumulator holds the kept segments in reverse. -/
def processSegs (isAbs : Bool) (segs : List String) : List String :=
  (segs.foldl (fun stack seg =>
    if seg = "" ∨ seg = "." then stack
    else if seg = ".." then
      match stack with
      | [] => if isAbs then [] else [".."]
      | top :: rest => if top = ".." then ".." :: top :: rest else rest
    else seg :: stack) []).reverse

/-- `path.posix.normalize`. -/
def pathNormalize (p : String) : String :=
  if p = "" then "."
  else
    let isAbs := strStartsWith p "/"
    let trailingSep := strEndsWith p "/"
    let body := joinWith "/" (processSegs isAbs ((splitSlash p.data).map String.mk))
    if body = "" then
      if isAbs then "/" else if trailingSep then "./" else "."
    else
      (if isAbs then "/" else "") ++ body ++ (if trailingSep then "/" else "")

/-- `path.posix.join` for two arguments: concatenate with a separator
(skipping empty arguments) and normalize. -/
def pathJoin (a b : String) : String :=
  if a = "" ∧ b = "" then "."
  else if a = "" then pathNormalize b
  else if b = "" then pathNormalize a
  else pathNormalize (a ++ "/" ++ b)

/-- `path.posix.resolve` against a process working directory assumed to
be an absolute path: an absolute argument ignores the working
directory; the result is absolute without a trailing separator. -/
def pathResolveOne (cwd p : String) : String :=
  let combined :=
    if strStartsWith p "/" then p else if p = "" then cwd else cwd ++ "/" ++ p
  let body := joinWith "/" (processSegs true ((splitSlash combined.data).map String.mk))
  if body = "" then "/" else "/" ++ body

/-- `path.posix.basename`: the last nonempty segment (trailing
separators ignored); empty for the root or the empty path. -/
def pathBasename (p : String) : String :=
  String.mk (((p.data.reverse.dropWhile (· == '/')).takeWhile (· != '/')).reverse)

/-- `path.posix.dirname`: everything before the separator that
precedes the last nonempty segment; `/` or `.` when there is none.
(The double-slash-root corner `//x` is not modelled; the code only
passes normalized paths.) -/
def pathDirname (p : String) : String :=
  match (p.data.reverse.dropWhile (· == '/')).dropWhile (· != '/') with
  | [] => if strStartsWith p "/" then "/" else "."
  | _ :: before => if before.isEmpty then "/" else String.mk before.reverse

/-- `path.parse(base).name`: the basename with its last extension
removed; a dot at position zero starts no extension. -/
def fileNameStem (base : String) : String :=
  let cs := base.data
  let afterLen := (cs.reverse.takeWhile (· != '.')).length
  if afterLen = cs.length then base
  else
    let dotIdx := cs.length - 1 - afterLen
    if dotIdx = 0 then base
    else String.mk (cs.take dotIdx)

/-- `generateTargetFileName` (identical in every adapter): take the
file stem, strip a trailing `.instructions` marker, and append the
suffix of the adapter. -/
def generateTargetFileName (templateFileName filesSuffix : String) : String :=
  let baseName := fileNameStem templateFileName
  let baseName :=
    if strEndsWith baseName ".instructions"
    then String.mk (baseName.data.take (baseName.data.length - 13))
    else baseName
  baseName ++ filesSuffix

/-- `validateTargetPath` (identical in the Cursor, Claude Code, GitHub
Copilot and Gemini adapters): decode, normalize, resolve to an absolute
path, then require the result to start with the base directory string;
a failed decode is the propagated `URIError`. -/
def validateTargetPath (cwd targetFilePath baseDirectory : String) :
    Except String String :=
  match decodeURIComponent targetFilePath with
  | none => .error "URIError: URI malformed"
  | some decodedPath =>
    if strStartsWith (pathResolveOne cwd (pathNormalize decodedPath)) baseDirectory then
      .ok (pathResolveOne cwd (pathNormalize decodedPath))
    else .error ("Invalid target path: " ++ targetFilePath)

/-- The spec contract `buildSafePath(candidateSegment, baseDirectory)`
contract as the adapters realize it: join the candidate onto the base
directory, then validate against the base. -/
def buildSafePath (cwd candidate baseDirectory : String) : Except String String :=
  validateTargetPath cwd (pathJoin baseDirectory candidate) baseDirectory

/-- Subtree containment in the directory-tree sense: `p` is the base
itself or lies strictly below it. -/
def inDirectoryB (base p : String) : Bool :=
  p == base || strStartsWith p (base ++ "/")

/-! ## The Cursor frontmatter transformation

`CursorAdapter.transformFrontmatterFields` (cursor-adapter.ts lines
153–156) is `value.replace` of the global multiline regex
`^applyTo:` `\s*(.+)$` by `globs: $1`.  We
model the JavaScript regex semantics exactly: `^` (with `m`) matches at
the start and after a line terminator, `\s*` is greedy with
backtracking, `.` matches anything but a line terminator, and `$`
matches before a line terminator or at the end. -/

/-- JavaScript regex line terminators in the ASCII range. -/
def lineTerm (c : Char) : Bool := c == '\n' || c == '\r'

/-- Matching of `\s*(.+)$` against `rest` (the text after a line-start
`applyTo:`), with the greedy JavaScript backtracking: `\s*` takes the
longest whitespace run that still leaves a first `.`-matchable
character; `(.+)` then takes the maximal run of non-terminator
characters, after which `$` always holds.  Returns the captured group
and the unconsumed tail, or `none` when no split matches. -/
def applyToTail (rest : List Char) : Option (List Char × List Char) :=
  if (rest.dropWhile jsWs).isEmpty then
    -- `rest` is all whitespace: backtrack to the last character that
    -- is not a line terminator (a space or tab can still satisfy `.+`)
    match rest.reverse.dropWhile lineTerm with
    | [] => none
    | c :: _ => some ([c], (rest.reverse.takeWhile lineTerm).reverse)
  else
    some ((rest.dropWhile jsWs).takeWhile (fun c => !lineTerm c),
          (rest.dropWhile jsWs).dropWhile (fun c => !lineTerm c))

/-- The global-replace scan of the `applyTo:` regex: attempt a match at
every line-start position, copy one character otherwise.  A match
consumes at least nine characters, so `fuel` bounded below by the input
length makes the fuel-exhaustion arm unreachable (fuel keeps the
recursion structural). -/
def applyToScanF : Nat → Bool → List Char → List Char
  | _, _, [] => []
  | 0, _, c :: rest => c :: rest
  | n + 1, atLineStart, c :: rest =>
    if atLineStart && "applyTo:".data.isPrefixOf (c :: rest) then
      match applyToTail ((c :: rest).drop 8) with
      | some (value, tail) =>
        "globs: ".data ++ value ++ applyToScanF n false tail
      | none => c :: applyToScanF n (lineTerm c) rest
    else c :: applyToScanF n (lineTerm c) rest

/-- `CursorAdapter.transformFrontmatterFields`. -/
def transformFrontmatterFields (frontmatterValue : String) : String :=
  String.mk (applyToScanF frontmatterValue.data.length true frontmatterValue.data)

/-- The intended per-line effect of the rename, for comparison: a line
starting with `applyTo:` becomes `globs: ` followed by the value (the
rest of the line after the colon and leading whitespace); every other
line is untouched. -/
def renameApplyToLine (line : List Char) : List Char :=
  if "applyTo:".data.isPrefixOf line then
    "globs: ".data ++ (line.drop 8).dropWhile jsWs
  else line

/-- Join lines with `\n` (no trailing newline). -/
def joinLinesC : List (List Char) → List Char
  | [] => []
  | [l] => l
  | l :: l' :: rest => l ++ '\n' :: joinLinesC (l' :: rest)

/-- Split on `\n`: `n` newlines produce `n + 1` lines. -/
def splitLinesC : List Char → List (List Char)
  | [] => [[]]
  | '\n' :: rest => [] :: splitLinesC rest
  | c :: rest =>
    match splitLinesC rest with
    | [] => [[c]]
    | seg :: segs => (c :: seg) :: segs

/-- The micromark yaml-frontmatter recognition used by
`processFrontmatter` (cursor-adapter.ts lines 115–127): a document has
a frontmatter node exactly when its first line is the fence `---` and
some later line is the closing fence `---`; the node value is the text
between the fences.  Returns the value and the body after the closing
fence line. -/
def extractFrontmatter (content : String) : Option (String × String) :=
  match splitLinesC content.data with
  | [] => none
  | first :: rest =>
    if first = "---".data then
      match rest.findIdx? (· = "---".data) with
      | none => none
      | some i =>
        some (String.mk (joinLinesC (rest.take i)),
              String.mk (joinLinesC (rest.drop (i + 1))))
    else none

/-- `CursorAdapter.processFrontmatter` (cursor-adapter.ts lines
114–148): parse with frontmatter support (the parser is total, so the
`catch` arm is unreachable); when there is no frontmatter node, or the
field transformation changes nothing, return the original text
byte-for-byte; otherwise re-serialize with the transformed frontmatter
value (`mdast-util-to-markdown` may reflow the markdown body — the body
re-serialization is out of scope for the claims and kept verbatim here). -/
def processFrontmatter (content : String) : String :=
  match extractFrontmatter content with
  | none => content
  | some (fmValue, body) =>
    if transformFrontmatterFields fmValue = fmValue then content
    else "---\n" ++ transformFrontmatterFields fmValue ++ "\n---\n" ++ body

/-- The opening/closing-fence suffix `\s*\n` of the Gemini
`stripFrontmatter` regex with greedy backtracking: `\s*` must end just
before a literal `\n`, so it extends to the last `\n` of the
whitespace run; returns the text after that newline. -/
def wsUptoLastNewline (r : List Char) : Option (List Char) :=
  match (r.takeWhile jsWs).reverse.dropWhile (· != '\n') with
  | [] => none
  | w => some (r.drop w.length)

/-- The lazy search for `\n---\s*\n` of the Gemini `stripFrontmatter`
regex: the first position whose `\n---` is followed by a whitespace run
containing a newline wins; the capture is everything after that
newline. -/
def findClose : List Char → Option (List Char)
  | [] => none
  | '\n' :: rest =>
    if "---".data.isPrefixOf rest then
      match wsUptoLastNewline (rest.drop 3) with
      | some body => some body
      | none => findClose rest
    else findClose rest
  | _ :: rest => findClose rest

/-- `GeminiAdapter.stripFrontmatter` (the match of
`/^---\s*\n([\s\S]*?)\n---\s*\n([\s\S]*)$/`, anchored at position zero
because there is no `m` flag): on a match return the second capture
(the body); otherwise return the content unchanged. -/
def stripFrontmatter (content : String) : String :=
  if "---".data.isPrefixOf content.data then
    match wsUptoLastNewline (content.data.drop 3) with
    | none => content
    | some afterOpen =>
      match findClose afterOpen with
      | none => content
      | some body => String.mk body
  else content

/-! ## Filesystem effects of the optional-capability processors

`processMcpConfiguration` and `processCommandsConfiguration`
(base-adapter.ts) are modelled as pure functions from the working
directory, the optional adapter configuration and an explicit
filesystem (read functions) to the list of filesystem operations they
perform; `JSON.stringify` of a merged document is deterministic, so a
written JSON file is represented by its parsed value. -/

/-- `McpConfig` (base-adapter.ts): target file path relative to the
project root, and the optional JSON merge key. -/
structure McpConfig where
  filePath : String
  mergeKey : Option String

/-- `CommandsConfig` (base-adapter.ts): target directory relative to
the project root, and the optional filename transform. -/
structure CommandsConfig where
  targetDirectory : String
  fileNameTransform : Option (String → String)

/-- One attempted filesystem mutation or warning. -/
inductive FsOp where
  | mkdir (path : String)
  | write (path : String) (content : JsVal)
  | writeText (path : String) (content : String)
  | warn (msg : String)

/-- `mcpConfig.mergeKey || 'mcpServers'` — JavaScript `||`, so an empty
string also falls back. -/
def effectiveMergeKey (cfg : McpConfig) : String :=
  match cfg.mergeKey with
  | some k => if k = "" then "mcpServers" else k
  | none => "mcpServers"

/-- The target-file computation of `processMcpConfiguration`
(base-adapter.ts line 104): `path.resolve(process.cwd(),
mcpConfig.filePath)` — the resolved target directory argument plays no
part. -/
def targetMcpFile (cwd : String) (cfg : McpConfig) : String :=
  pathResolveOne cwd cfg.filePath

/-- `BaseAdapter.processMcpConfiguration` (base-adapter.ts lines
93–162): no-op without an `McpConfig`; warn and abort when the template
cannot be read or parsed; treat an unreadable or unparseable existing
target as `{}`; otherwise create the directory of the target and write the
merged document.  `readJson p` is the composition of `fs.readFile` and
`JSON.parse` (`none` = either throws).  The unused `scaffoldInstructions`
argument is omitted; `resolvedTargetDirectory` is kept to show it is
unused. -/
def processMcpConfiguration (cwd : String) (mcpConfig? : Option McpConfig)
    (readJson : String → Option (List (String × JsVal)))
    (resolvedMcpTemplateDirectory resolvedTargetDirectory : String) : List FsOp :=
  match mcpConfig? with
  | none => []
  | some mcpConfig =>
    match readJson (pathJoin resolvedMcpTemplateDirectory "mcp.json") with
    | none => [.warn "Failed to process MCP configuration"]
    | some templateMcpConfig =>
      let existingConfig := (readJson (targetMcpFile cwd mcpConfig)).getD []
      let merged := mergeMcpConfigs templateMcpConfig existingConfig
        (effectiveMergeKey mcpConfig)
      [.mkdir (pathDirname (targetMcpFile cwd mcpConfig)),
       .write (targetMcpFile cwd mcpConfig) (.obj merged)]

/-- The per-file loop of `processCommandsConfiguration` (base-adapter.ts
lines 197–218).  There is no per-file `try` here: a `stat` or `read`
failure escapes to the surrounding catch, aborting the remaining files
(`false` in the result). -/
def commandsLoop (statIsFile : String → Option Bool)
    (readFileFn : String → Option String) (transform : Option (String → String))
    (srcDir targetDirectory : String) : List String → List FsOp × Bool
  | [] => ([], true)
  | commandFile :: rest =>
    match statIsFile (pathJoin srcDir commandFile) with
    | none => ([], false)
    | some false =>
      commandsLoop statIsFile readFileFn transform srcDir targetDirectory rest
    | some true =>
      let targetFileName :=
        match transform with
        | some t => t commandFile
        | none => commandFile
      match readFileFn (pathJoin srcDir commandFile) with
      | none => ([], false)
      | some content =>
        let r := commandsLoop statIsFile readFileFn transform srcDir targetDirectory rest
        (.writeText (pathJoin targetDirectory targetFileName) content :: r.1, r.2)

/-- `BaseAdapter.processCommandsConfiguration` (base-adapter.ts lines
171–225): no-op without a `CommandsConfig`; the target directory is
`path.resolve(process.cwd(), commandsConfig.targetDirectory)` — again
independent of `resolvedTargetDirectory`; the directory is created
first, then `*.command.md` entries are copied verbatim with the
optional filename transform; any error inside the `try` produces one
warning. -/
def processCommandsConfiguration (cwd : String)
    (commandsConfig? : Option CommandsConfig)
    (listDir : String → Option (List String))
    (statIsFile : String → Option Bool) (readFileFn : String → Option String)
    (resolvedCommandsTemplateDirectory resolvedTargetDirectory : String) :
    List FsOp :=
  match commandsConfig? with
  | none => []
  | some cfg =>
    match listDir resolvedCommandsTemplateDirectory with
    | none => [.mkdir (pathResolveOne cwd cfg.targetDirectory),
               .warn "Failed to process commands configuration"]
    | some files =>
      let r := commandsLoop statIsFile readFileFn cfg.fileNameTransform
        resolvedCommandsTemplateDirectory (pathResolveOne cwd cfg.targetDirectory)
        (files.filter (fun f => strEndsWith f ".command.md"))
      .mkdir (pathResolveOne cwd cfg.targetDirectory) ::
        (r.1 ++ if r.2 then [] else [.warn "Failed to process commands configuration"])

/-! ## The per-file template copy of the Cursor adapter

`CursorAdapter.copyTemplateFiles` / `copyTemplateFile`
(cursor-adapter.ts lines 38–96).  The filesystem is a total function
from paths to entries; a batch run returns the writes performed (path,
content) and the warnings printed, or `Except.error` for the one
exception that is NOT caught per file: `decodeURIComponent` runs before
the `try` block, so a malformed percent escape in a listing entry
aborts the whole batch. -/

/-- What `stat`/`readFile` see at a path: a file with its content and
readability, a directory, or nothing (`stat` throws). -/
inductive FsEntry where
  | file (content : String) (readable : Bool)
  | directory
  | absent

/-- The per-file warning `Skipping file ${name}: ${message}`; the
underlying error text is abstracted to `error`. -/
def skipWarn (name : String) : String := "Skipping file " ++ name ++ ": error"

/-- `CursorAdapter.copyTemplateFile`: decode and sanitize the listing
path (outside the `try`), `stat` it, skip directories silently,
validate the suffixed target path, read, transform frontmatter, write;
any failure inside the `try` is one warning naming the file. -/
def copyTemplateFileM (fs : String → FsEntry)
    (cwd templateFilePath targetFilePath resolvedTargetDirectory filesSuffix : String) :
    Except String (List (String × String) × List String) :=
  match decodeURIComponent templateFilePath with
  | none => .error "URIError: URI malformed"
  | some decodedPath =>
    let sanitizedTemplateFile := pathBasename (pathNormalize decodedPath)
    let fullTemplatePath := pathJoin (pathDirname templateFilePath) sanitizedTemplateFile
    match fs fullTemplatePath with
    | .absent => .ok ([], [skipWarn sanitizedTemplateFile])
    | .directory => .ok ([], [])
    | .file content readable =>
      match validateTargetPath cwd
          (pathJoin targetFilePath (generateTargetFileName sanitizedTemplateFile filesSuffix))
          resolvedTargetDirectory with
      | .error _ => .ok ([], [skipWarn sanitizedTemplateFile])
      | .ok resolvedTargetFilePath =>
        if readable then
          .ok ([(resolvedTargetFilePath, processFrontmatter content)], [])
        else .ok ([], [skipWarn sanitizedTemplateFile])

/-- `CursorAdapter.copyTemplateFiles`: loop over the directory listing,
joining each entry onto the template directory; writes and warnings
accumulate in order. -/
def copyTemplateFilesM (fs : String → FsEntry)
    (cwd resolvedTemplateDirectory resolvedTargetDirectory filesSuffix : String) :
    List String → Except String (List (String × String) × List String)
  | [] => .ok ([], [])
  | templateFile :: rest => do
    let r ← copyTemplateFileM fs cwd (pathJoin resolvedTemplateDirectory templateFile)
      resolvedTargetDirectory resolvedTargetDirectory filesSuffix
    let rs ← copyTemplateFilesM fs cwd resolvedTemplateDirectory
      resolvedTargetDirectory filesSuffix rest
    .ok (r.1 ++ rs.1, r.2 ++ rs.2)

/-! ### Concrete fixture used by the batch-copy witness -/

/-- A three-entry template directory: two readable files and one entry
whose `stat` fails. -/
def wfs : String → FsEntry := fun p =>
  if p = "/src/a.md" then .file "A" true
  else if p = "/src/b.md" then .file "B" true
  else .absent

/-- The expected write for each good file of the fixture. -/
def wofFn : String → String × String := fun n =>
  if n = "a.md" then ("/t/a.mdc", "A") else ("/t/b.mdc", "B")

/-! ## The single-file `main.ts` pipeline (part of the published
package): `getAiAppDirectory`, `resolveTemplateDirectory`,
`scaffoldAiAppInstructions`. -/

/-- `AiAppConfig` of main.ts. -/
structure AiAppConfig where
  directory : String
  filesSuffix : String

/-- `mapAiAppsToDirectories` (main.ts): the single supported target. -/
def mapAiAppsToDirectories : List (String × AiAppConfig) :=
  [("github-copilot", ⟨".github/instructions", ".instructions.md"⟩)]

/-- `getAiAppDirectory` (main.ts): look the app up with `Object.hasOwn`
and throw for an unsupported one. -/
def getAiAppDirectory (aiApp : String) : Except String AiAppConfig :=
  match mapAiAppsToDirectories.lookup aiApp with
  | some cfg => .ok cfg
  | none => .error ("AI App \"" ++ aiApp ++ "\" is not supported.")

/-- `validateTargetPath` of main.ts (the early variant, without the
decode/normalize steps): resolve and require the base-directory string
prefix. -/
def validateTargetPathSimple (cwd targetFilePath resolvedTargetDirectory : String) :
    Except String String :=
  if strStartsWith (pathResolveOne cwd targetFilePath) resolvedTargetDirectory then
    .ok (pathResolveOne cwd targetFilePath)
  else .error ("Invalid target path: " ++ targetFilePath)

/-- `copyTemplateFile` of main.ts: no decode, no frontmatter
processing; failures inside the `try` become one warning. -/
def copyTemplateFile011 (fs : String → FsEntry)
    (cwd templateFilePath targetFilePath resolvedTargetDirectory filesSuffix : String) :
    List FsOp :=
  let sanitized := pathBasename templateFilePath
  match fs (pathJoin (pathDirname templateFilePath) sanitized) with
  | .absent => [.warn (skipWarn sanitized)]
  | .directory => []
  | .file content readable =>
    match validateTargetPathSimple cwd
        (pathJoin targetFilePath (generateTargetFileName sanitized filesSuffix))
        resolvedTargetDirectory with
    | .error _ => [.warn (skipWarn sanitized)]
    | .ok resolved =>
      if readable then [.writeText resolved content] else [.warn (skipWarn sanitized)]

/-- `copyTemplateFiles` of main.ts. -/
def copyTemplateFiles011 (fs : String → FsEntry)
    (cwd resolvedTemplateDirectory resolvedTargetDirectory filesSuffix : String)
    (templateFiles : List String) : List FsOp :=
  (templateFiles.map (fun f =>
    copyTemplateFile011 fs cwd (pathJoin resolvedTemplateDirectory f)
      resolvedTargetDirectory resolvedTargetDirectory filesSuffix)).flatten

/-- `scaffoldAiAppInstructions` (main.ts lines 158–175) as the list of
filesystem mutations attempted plus the error thrown, if any.  The
three required fields are validated first; then the app is looked up,
the template directory `{dist}/__template__/{language}/{topic}` is
checked (`templateDirOk`), the target directory is created (the first
mutation), and the template files are copied. -/
def scaffoldAiAppInstructions (distDir : String) (templateDirOk : String → Bool)
    (listDir : String → List String) (fs : String → FsEntry) (cwd : String)
    (aiApp codeLanguage codeTopic : String) : List FsOp × Option String :=
  if aiApp = "" ∨ codeLanguage = "" ∨ codeTopic = "" then
    ([], some "Scaffold instructions must include aiApp and all other template choices.")
  else
    match getAiAppDirectory aiApp with
    | .error e => ([], some e)
    | .ok cfg =>
      let resolvedTemplateDirectory :=
        pathResolveOne cwd
          (pathJoin (pathJoin (pathJoin distDir "__template__") codeLanguage) codeTopic)
      if templateDirOk resolvedTemplateDirectory then
        let resolvedTargetDirectory := pathResolveOne cwd cfg.directory
        (FsOp.mkdir resolvedTargetDirectory ::
          copyTemplateFiles011 fs cwd resolvedTemplateDirectory resolvedTargetDirectory
            cfg.filesSuffix (listDir resolvedTemplateDirectory), none)
      else ([], some ("Template directory not found: " ++ resolvedTemplateDirectory))

/-! ## The adapter registry -/

/-- The three registered adapters (adapter-registry.ts). -/
inductive AdapterId where
  | githubCopilot
  | cursor
  | claudeCode

/-- `AdapterRegistry.adapters`: identifier → adapter factory. -/
def adapters : List (String × AdapterId) :=
  [("github-copilot", .githubCopilot), ("cursor", .cursor), ("claude-code", .claudeCode)]

/-- `AdapterRegistry.getAdapter`. -/
def getAdapter (aiApp : String) : Except String AdapterId :=
  match adapters.lookup aiApp with
  | some a => .ok a
  | none => .error ("AI App \"" ++ aiApp ++ "\" is not supported.")

/-- `AdapterRegistry.getSupportedAiApps`. -/
def getSupportedAiApps : List String := adapters.map Prod.fst

/-! ## The CLAUDE.md / GEMINI.md import merger -/

/-- The deduplication guard of `addImportsToClaudeContent`
(claude-code-adapter.ts lines 178–196): the lower-cased document already
contains the lower-cased `# `-prefixed category header, and at least one
of the import lines already occurs (case-insensitively) in the document. -/
def importsGuard (content categoryLabel : String) (imports : List String) : Bool :=
  includesStr (lowerStr content) (lowerStr ("# " ++ categoryLabel)) &&
    imports.any (fun importLine => includesStr (lowerStr content) (lowerStr importLine))

/-- `ClaudeCodeAdapter.addImportsToClaudeContent`
(claude-code-adapter.ts lines 173–228); the `GeminiAdapter` method
`addImportsToGeminiContent` is the same function, its caller merely
formats the import lines without a bullet.  The `fromMarkdown(content)`
call at the top of the `try` block is a total parser on strings, so the
`catch` fallback is unreachable and the `try` branch is the whole
behaviour.  If the guard holds the input is returned unchanged;
otherwise the trimmed document gets a blank-line separator (when
nonempty), the category header (when not already present), and the import
lines appended. -/
def addImportsToClaudeContent (content categoryLabel : String)
    (imports : List String) : String :=
  if importsGuard content categoryLabel imports then content
  else
    let u0 := trimStr content
    let u1 := if u0.data.length > 0 then u0 ++ "\n\n" else u0
    let u2 :=
      if includesStr (lowerStr content) (lowerStr ("# " ++ categoryLabel)) then u1
      else u1 ++ "# " ++ categoryLabel ++ "\n\n"
    u2 ++ joinWith "\n" imports ++ "\n"

/-! ### Association-list lemmas -/

theorem getKey_append (xs ys : List (String × JsVal)) (k : String) :
    getKey (xs ++ ys) k =
      match getKey xs k with
      | some v => some v
      | none => getKey ys k := by
  induction xs with
  | nil => simp [getKey]
  | cons hd tl ih =>
    obtain ⟨k', v⟩ := hd
    by_cases h : k' = k <;> simp [getKey, h, ih]

theorem getKey_map_overrideWith (a b : List (String × JsVal)) (k : String) :
    getKey (a.map (overrideWith b)) k =
      match getKey a k with
      | some v =>
        some (match getKey b k with
              | some w => w
              | none => v)
      | none => none := by
  induction a with
  | nil => simp [getKey]
  | cons hd tl ih =>
    obtain ⟨k', v⟩ := hd
    by_cases h : k' = k
    · subst h
      cases hw : getKey b k' <;> simp [getKey, overrideWith, hw]
    · cases hw : getKey b k' <;> simp [getKey, overrideWith, hw, h, ih]

theorem hasKeyB_eq_isSome (a : List (String × JsVal)) (k : String) :
    hasKeyB a k = (getKey a k).isSome := by
  induction a with
  | nil => simp [hasKeyB, getKey]
  | cons hd tl ih =>
    obtain ⟨k', v⟩ := hd
    by_cases h : k' = k <;> simp [hasKeyB, getKey, h, ih]

theorem getKey_filter_not_hasKey (a b : List (String × JsVal)) (k : String)
    (h : hasKeyB a k = false) :
    getKey (b.filter (fun kv => !hasKeyB a kv.1)) k = getKey b k := by
  induction b with
  | nil => simp
  | cons hd tl ih =>
    obtain ⟨k', v⟩ := hd
    by_cases hk : k' = k
    · subst hk
      simp [List.filter_cons, h, getKey]
    · cases hp : hasKeyB a k' <;> simp [List.filter_cons, hp, getKey, hk, ih]

/-- Lookup in a JavaScript spread `{...a, ...b}`: the binding of `b` wins,
otherwise the binding of `a` survives. -/
theorem getKey_jsSpread (a b : List (String × JsVal)) (k : String) :
    getKey (jsSpread a b) k =
      match getKey b k with
      | some v => some v
      | none => getKey a k := by
  unfold jsSpread
  rw [getKey_append, getKey_map_overrideWith]
  cases ha : getKey a k with
  | some v =>
    cases hb : getKey b k <;> simp
  | none =>
    have hna : hasKeyB a k = false := by rw [hasKeyB_eq_isSome, ha]; rfl
    rw [getKey_filter_not_hasKey a b k hna]
    cases hb : getKey b k <;> simp

theorem hasKeyB_append (xs ys : List (String × JsVal)) (k : String) :
    hasKeyB (xs ++ ys) k = (hasKeyB xs k || hasKeyB ys k) := by
  induction xs with
  | nil => simp [hasKeyB]
  | cons hd tl ih => simp [hasKeyB, ih, Bool.or_assoc]

theorem hasKeyB_jsSpread (a b : List (String × JsVal)) (k : String) :
    hasKeyB (jsSpread a b) k = (hasKeyB a k || hasKeyB b k) := by
  rw [hasKeyB_eq_isSome, getKey_jsSpread, hasKeyB_eq_isSome, hasKeyB_eq_isSome]
  cases getKey b k <;> cases getKey a k <;> simp

theorem getKey_nodup_of_mem (b : List (String × JsVal))
    (hnd : (b.map Prod.fst).Nodup) {kv : String × JsVal} (hm : kv ∈ b) :
    getKey b kv.1 = some kv.2 := by
  induction b with
  | nil => simp at hm
  | cons hd tl ih =>
    obtain ⟨k', v⟩ := hd
    simp only [List.map_cons, List.nodup_cons] at hnd
    rcases List.mem_cons.mp hm with h | h
    · subst h; simp [getKey]
    · have hne : k' ≠ kv.1 := by
        intro he
        exact hnd.1 (he ▸ (List.mem_map.mpr ⟨kv, h, rfl⟩))
      simp [getKey, hne, ih hnd.2 h]

theorem map_eq_self_of {α : Type} (l : List α) (f : α → α) (h : ∀ x ∈ l, f x = x) :
    l.map f = l := by
  induction l with
  | nil => rfl
  | cons a t ih =>
    simp only [List.map_cons, h a (by simp)]
    rw [ih (fun x hx => h x (by simp [hx]))]

/-- Re-spreading the same (`JSON.parse`d, hence duplicate-free) map over
an already-spread object changes nothing. -/
theorem jsSpread_idem (a b : List (String × JsVal))
    (hnd : (b.map Prod.fst).Nodup) :
    jsSpread (jsSpread a b) b = jsSpread a b := by
  have hmap : (jsSpread a b).map (overrideWith b) = jsSpread a b := by
    apply map_eq_self_of
    intro kv hkv
    unfold jsSpread at hkv
    rcases List.mem_append.mp hkv with h | h
    · rcases List.mem_map.mp h with ⟨⟨k', v'⟩, hmem, heq⟩
      cases hb : getKey b k' with
      | some w =>
        have : kv = (k', w) := by rw [← heq]; simp [overrideWith, hb]
        subst this
        simp [overrideWith, hb]
      | none =>
        have : kv = (k', v') := by rw [← heq]; simp [overrideWith, hb]
        subst this
        simp [overrideWith, hb]
    · have := getKey_nodup_of_mem b hnd (List.mem_filter.mp h).1
      simp [overrideWith, this]
  have hfil : b.filter (fun kv => !hasKeyB (jsSpread a b) kv.1) = [] := by
    apply List.filter_eq_nil_iff.mpr
    intro kv hkv
    have hk : hasKeyB (jsSpread a b) kv.1 = true := by
      rw [hasKeyB_jsSpread, hasKeyB_eq_isSome b]
      have := getKey_nodup_of_mem b hnd hkv
      simp [this]
    simp [hk]
  calc jsSpread (jsSpread a b) b
      = (jsSpread a b).map (overrideWith b) ++
          b.filter (fun kv => !hasKeyB (jsSpread a b) kv.1) := rfl
    _ = jsSpread a b ++ [] := by rw [hmap, hfil]
    _ = jsSpread a b := by simp

/-- Running the MCP JSON merge a second time with the same template and
merge key over its own output reproduces that output exactly (same keys,
same order, same values), so the re-serialized file is byte-identical.
The hypothesis — the server names of the template are duplicate-free — holds
for every map produced by `JSON.parse`. -/
theorem mergeMcpConfigs_idem (tmpl E : List (String × JsVal)) (k : String)
    (hnd : ((firstObjAt tmpl (keysToTry k)).map Prod.fst).Nodup) :
    mergeMcpConfigs tmpl (mergeMcpConfigs tmpl E k) k = mergeMcpConfigs tmpl E k := by
  show jsSpread (mergeMcpConfigs tmpl E k)
      [(k, .obj (jsSpread (extractServers (mergeMcpConfigs tmpl E k) k)
                  (firstObjAt tmpl (keysToTry k))))] = mergeMcpConfigs tmpl E k
  have h1 : extractServers (mergeMcpConfigs tmpl E k) k =
      jsSpread (extractServers E k) (firstObjAt tmpl (keysToTry k)) := by
    show extractServers (jsSpread E [(k, _)]) k = _
    unfold extractServers
    rw [getKey_jsSpread]
    simp [getKey]
  rw [h1, jsSpread_idem _ _ hnd]
  exact jsSpread_idem E _ (by simp)

/-! ### Character, infix and trim lemmas for the import merger -/

theorem strData_append (s t : String) : (s ++ t).data = s.data ++ t.data := rfl

theorem strData_mk (l : List Char) : (String.mk l).data = l := rfl

theorem jsWs_toLower (c : Char) : jsWs (Char.toLower c) = jsWs c := by
  unfold Char.toLower
  by_cases h : c.toNat ≥ 65 ∧ c.toNat ≤ 90
  · rw [if_pos h]
    have ht : (Char.ofNat (c.toNat + 32)).toNat = c.toNat + 32 := by
      unfold Char.ofNat
      rw [dif_pos (Or.inl (by omega : c.toNat + 32 < 55296))]
      rfl
    have key : ∀ d : Char, d.toNat ≥ 65 → ∀ w : Char, w.toNat < 65 → (d == w) = false := by
      intro d hd w hw
      apply beq_false_of_ne
      intro he
      subst he
      omega
    have hlow : (Char.ofNat (c.toNat + 32)).toNat ≥ 65 := by omega
    have hc : c.toNat ≥ 65 := h.1
    unfold jsWs
    rw [key _ hlow ' ' (by decide), key _ hlow '\t' (by decide), key _ hlow '\n' (by decide),
      key _ hlow '\r' (by decide), key _ hlow '\x0b' (by decide), key _ hlow '\x0c' (by decide),
      key _ hc ' ' (by decide), key _ hc '\t' (by decide), key _ hc '\n' (by decide),
      key _ hc '\r' (by decide), key _ hc '\x0b' (by decide), key _ hc '\x0c' (by decide)]
  · rw [if_neg h]

/-- An infix whose first character fails `p` survives `dropWhile p`:
the dropped prefix cannot overlap the occurrence. -/
theorem infix_dropWhile_front (p : Char → Bool) (h l : List Char) (c0 : Char)
    (hs : h.head? = some c0) (hc : p c0 = false) (hinf : h <:+: l) :
    h <:+: l.dropWhile p := by
  induction l with
  | nil =>
    rw [List.eq_nil_of_infix_nil hinf] at hs
    simp at hs
  | cons a t ih =>
    rw [List.dropWhile_cons]
    by_cases hpa : p a
    · rw [if_pos hpa]
      rcases List.infix_cons_iff.mp hinf with hpre | hinf'
      · cases h with
        | nil => simp at hs
        | cons x xs =>
          have hx : x = c0 := by simpa using hs
          obtain ⟨t', ht'⟩ := hpre
          rw [List.cons_append] at ht'
          have hxa : x = a := ((List.cons.injEq _ _ _ _).mp ht').1
          rw [← hxa, hx, hc] at hpa
          exact absurd hpa (by simp)
      · exact ih hinf'
    · rw [if_neg hpa]
      exact hinf

/-- An infix with non-whitespace first and last characters survives
JavaScript `trim`. -/
theorem infix_trimChars (h l : List Char) (c0 cn : Char)
    (hs : h.head? = some c0) (he : h.getLast? = some cn)
    (hc0 : jsWs c0 = false) (hcn : jsWs cn = false) (hinf : h <:+: l) :
    h <:+: trimChars l := by
  unfold trimChars
  have h1 : h <:+: l.dropWhile jsWs := infix_dropWhile_front jsWs h l c0 hs hc0 hinf
  have h2 : h.reverse <:+: (l.dropWhile jsWs).reverse := List.reverse_infix.mpr h1
  have hrs : h.reverse.head? = some cn := by rw [List.head?_reverse]; exact he
  have h3 : h.reverse <:+: ((l.dropWhile jsWs).reverse).dropWhile jsWs :=
    infix_dropWhile_front jsWs h.reverse _ cn hrs hcn h2
  exact List.reverse_infix.mp (by rw [List.reverse_reverse]; exact h3)

theorem dropWhile_jsWs_map_toLower (l : List Char) :
    (l.map Char.toLower).dropWhile jsWs = (l.dropWhile jsWs).map Char.toLower := by
  have hp : (jsWs ∘ Char.toLower) = jsWs := funext (fun c => jsWs_toLower c)
  rw [List.dropWhile_map, hp]

theorem trimChars_map_toLower (l : List Char) :
    trimChars (l.map Char.toLower) = (trimChars l).map Char.toLower := by
  unfold trimChars
  rw [dropWhile_jsWs_map_toLower, ← List.map_reverse, dropWhile_jsWs_map_toLower,
    List.map_reverse]

theorem joinWith_head_prefix (sep x : String) (xs : List String) :
    x.data <+: (joinWith sep (x :: xs)).data := by
  cases xs with
  | nil => exact List.prefix_refl _
  | cons y ys =>
    exact ⟨sep.data ++ (joinWith sep (y :: ys)).data,
      by simp [joinWith, strData_append, List.append_assoc]⟩

/-! ### The applyTo-rename scan, line by line -/

theorem applyToScanF_nil (n : Nat) (b : Bool) : applyToScanF n b [] = [] := by
  cases n <;> rfl

theorem applyToScanF_succ (n : Nat) (b : Bool) (c : Char) (rest : List Char) :
    applyToScanF (n + 1) b (c :: rest) =
      if b && "applyTo:".data.isPrefixOf (c :: rest) then
        match applyToTail ((c :: rest).drop 8) with
        | some (value, tail) =>
          "globs: ".data ++ value ++ applyToScanF n false tail
        | none => c :: applyToScanF n (lineTerm c) rest
      else c :: applyToScanF n (lineTerm c) rest := rfl

/-- A pattern without line terminators cannot reach across the line
boundary that follows `l`. -/
theorem isPrefixOf_append_lineEnd (p : List Char)
    (hp : ∀ c ∈ p, lineTerm c = false) :
    ∀ (l tail : List Char), (tail = [] ∨ ∃ t', tail = '\n' :: t') →
      p.isPrefixOf (l ++ tail) = p.isPrefixOf l := by
  induction p with
  | nil => intro l tail _; simp [List.isPrefixOf]
  | cons a p' ih =>
    intro l tail ht
    cases l with
    | nil =>
      have ha : (a == '\n') = false := by
        have := hp a (by simp)
        unfold lineTerm at this
        simp at this
        simp [this.1]
      rcases ht with h | ⟨t', h⟩ <;> subst h <;>
        simp [List.isPrefixOf, ha]
    | cons b l' =>
      have h1 : (a :: p').isPrefixOf ((b :: l') ++ tail) =
          (a == b && p'.isPrefixOf (l' ++ tail)) := rfl
      have h2 : (a :: p').isPrefixOf (b :: l') = (a == b && p'.isPrefixOf l') := rfl
      rw [h1, h2, ih (fun c hc => hp c (by simp [hc])) l' tail ht]

theorem scanF_false_glue (l : List Char) : ∀ (n : Nat) (tail : List Char),
    (l ++ tail).length ≤ n → (∀ c ∈ l, lineTerm c = false) →
    applyToScanF n false (l ++ tail) = l ++ applyToScanF (n - l.length) false tail := by
  induction l with
  | nil => intro n tail _ _; simp
  | cons a l' ih =>
    intro n tail hn hl
    cases n with
    | zero => simp at hn
    | succ m =>
      rw [show ((a :: l') ++ tail) = a :: (l' ++ tail) from rfl, applyToScanF_succ,
        if_neg (by simp)]
      rw [hl a (by simp)]
      have hm : (l' ++ tail).length ≤ m := by
        simp only [List.length_append, List.length_cons] at hn ⊢
        omega
      rw [ih m tail hm (fun c hc => hl c (by simp [hc]))]
      have harith : m + 1 - (a :: l').length = m - l'.length := by
        simp only [List.length_cons]
        omega
      rw [harith]
      rfl

theorem scanF_true_line (l : List Char) (n : Nat) (tail : List Char)
    (hn : (l ++ tail).length ≤ n)
    (hl : ∀ c ∈ l, lineTerm c = false)
    (hpf : "applyTo:".data.isPrefixOf (l ++ tail) = false) :
    applyToScanF n true (l ++ tail) =
      l ++ applyToScanF (n - l.length) l.isEmpty tail := by
  cases l with
  | nil => simp
  | cons a l' =>
    cases n with
    | zero => simp at hn
    | succ m =>
      have hpf' : "applyTo:".data.isPrefixOf (a :: (l' ++ tail)) = false := hpf
      rw [show ((a :: l') ++ tail) = a :: (l' ++ tail) from rfl, applyToScanF_succ,
        if_neg (by simp [hpf'])]
      rw [hl a (by simp)]
      have hm : (l' ++ tail).length ≤ m := by
        simp only [List.length_append, List.length_cons] at hn ⊢
        omega
      rw [scanF_false_glue l' m tail hm (fun c hc => hl c (by simp [hc]))]
      have harith : m + 1 - (a :: l').length = m - l'.length := by
        simp only [List.length_cons]
        omega
      rw [harith]
      rfl

theorem scanF_newline (b : Bool) (n : Nat) (R : List Char) (hn : 1 ≤ n) :
    applyToScanF n b ('\n' :: R) = '\n' :: applyToScanF (n - 1) true R := by
  cases n with
  | zero => omega
  | succ m =>
    have hpf : "applyTo:".data.isPrefixOf ('\n' :: R) = false := by
      show (('a' : Char) == '\n' && _) = false
      rw [show (('a' : Char) == '\n') = false by decide]
      rfl
    rw [applyToScanF_succ, if_neg (by simp [hpf])]
    rw [show lineTerm '\n' = true from rfl]
    simp

theorem scanF_applyTo_line (l : List Char) (n : Nat) (tail : List Char)
    (hn : (l ++ tail).length ≤ n)
    (hl : ∀ c ∈ l, lineTerm c = false)
    (hpf : "applyTo:".data.isPrefixOf l = true)
    (hval : (l.drop 8).dropWhile jsWs ≠ [])
    (ht : tail = [] ∨ ∃ t', tail = '\n' :: t') :
    applyToScanF n true (l ++ tail) =
      "globs: ".data ++ (l.drop 8).dropWhile jsWs ++
        applyToScanF (n - 1) false tail := by
  have hlen8 : 8 ≤ l.length := by
    have := (List.isPrefixOf_iff_prefix.mp hpf).length_le
    simpa using this
  obtain ⟨a, l', rfl⟩ : ∃ a l', l = a :: l' := by
    cases l with
    | nil => simp at hlen8
    | cons a l' => exact ⟨a, l', rfl⟩
  cases n with
  | zero => simp at hn
  | succ m =>
    have hpf' : "applyTo:".data.isPrefixOf (a :: (l' ++ tail)) = true := by
      show "applyTo:".data.isPrefixOf ((a :: l') ++ tail) = true
      rw [isPrefixOf_append_lineEnd _ (by decide) _ _ ht]
      exact hpf
    have hmem : ∀ c ∈ ((a :: l').drop 8).dropWhile jsWs, c ∈ a :: l' := by
      intro c hc
      exact List.drop_subset _ _ ((List.dropWhile_sublist _).subset hc)
    obtain ⟨v0, v', hv⟩ : ∃ v0 v', ((a :: l').drop 8).dropWhile jsWs = v0 :: v' := by
      cases he : ((a :: l').drop 8).dropWhile jsWs with
      | nil => exact absurd he hval
      | cons x xs => exact ⟨x, xs, rfl⟩
    have hvmem : ∀ c ∈ v0 :: v', (!lineTerm c) = true := by
      intro c hc
      rw [hl c (hmem c (hv ▸ hc))]
      rfl
    have hdw : (((a :: l') ++ tail).drop 8).dropWhile jsWs = (v0 :: v') ++ tail := by
      rw [List.drop_append_of_le_length hlen8, List.dropWhile_append,
        if_neg (by rw [hv]; simp), hv]
    have htl : applyToTail (((a :: l') ++ tail).drop 8) = some (v0 :: v', tail) := by
      unfold applyToTail
      rw [hdw]
      rw [if_neg (by simp)]
      have h1 : ((v0 :: v') ++ tail).takeWhile (fun c => !lineTerm c) = v0 :: v' := by
        rw [List.takeWhile_append_of_pos hvmem]
        rcases ht with h | ⟨t', h⟩ <;> subst h <;> simp [lineTerm]
      have h2 : ((v0 :: v') ++ tail).dropWhile (fun c => !lineTerm c) = tail := by
        rw [List.dropWhile_append,
          if_pos (by rw [List.dropWhile_eq_nil_iff.mpr hvmem]; rfl)]
        rcases ht with h | ⟨t', h⟩
        · subst h; rfl
        · subst h
          rw [List.dropWhile_cons, if_neg (by simp [lineTerm])]
      rw [h1, h2]
    rw [show ((a :: l') ++ tail) = a :: (l' ++ tail) from rfl, applyToScanF_succ,
      if_pos (by simp [hpf'])]
    rw [show (a :: (l' ++ tail)).drop 8 = ((a :: l') ++ tail).drop 8 from rfl, htl]
    rw [hv]
    simp

/-- The scan over a document whose lines contain no line terminators
and whose `applyTo:` lines carry a non-whitespace value on the same
line equals the per-line rename: only `applyTo:` lines change. -/
theorem scanF_linewise (L : List (List Char)) : ∀ (n : Nat),
    (joinLinesC L).length ≤ n →
    (∀ l ∈ L, ∀ c ∈ l, lineTerm c = false) →
    (∀ l ∈ L, "applyTo:".data.isPrefixOf l = true → (l.drop 8).dropWhile jsWs ≠ []) →
    applyToScanF n true (joinLinesC L) = joinLinesC (L.map renameApplyToLine) := by
  induction L with
  | nil =>
    intro n _ _ _
    rw [show joinLinesC [] = [] from rfl, applyToScanF_nil]
    rfl
  | cons l L' ih =>
    intro n hn hnl happ
    cases L' with
    | nil =>
      have hn' : (l ++ []).length ≤ n := by
        simpa using hn
      by_cases hp : "applyTo:".data.isPrefixOf l = true
      · have h := scanF_applyTo_line l n [] hn' (hnl l (by simp)) hp
          (happ l (by simp) hp) (Or.inl rfl)
        rw [show joinLinesC [l] = l ++ [] by simp [joinLinesC], h,
          applyToScanF_nil]
        show _ = renameApplyToLine l
        unfold renameApplyToLine
        rw [if_pos hp]
        simp
      · have hpB : "applyTo:".data.isPrefixOf l = false := by
          cases hx : "applyTo:".data.isPrefixOf l
          · rfl
          · exact absurd hx hp
        have h := scanF_true_line l n [] hn' (hnl l (by simp))
          (by rw [isPrefixOf_append_lineEnd _ (by decide) _ _ (Or.inl rfl)]; exact hpB)
        rw [show joinLinesC [l] = l ++ [] by simp [joinLinesC], h,
          applyToScanF_nil]
        show _ = renameApplyToLine l
        unfold renameApplyToLine
        rw [if_neg (by simp [hpB])]
        simp
    | cons l2 rest =>
      have hj : joinLinesC (l :: l2 :: rest) = l ++ '\n' :: joinLinesC (l2 :: rest) := rfl
      have hlen : l.length + ((joinLinesC (l2 :: rest)).length + 1) ≤ n := by
        rw [hj] at hn
        simpa using hn
      have hnl' : ∀ x ∈ l2 :: rest, ∀ c ∈ x, lineTerm c = false :=
        fun x hx => hnl x (by simp [hx])
      have happ' : ∀ x ∈ l2 :: rest, "applyTo:".data.isPrefixOf x = true →
          (x.drop 8).dropWhile jsWs ≠ [] :=
        fun x hx => happ x (by simp [hx])
      have hrhs : joinLinesC ((l :: l2 :: rest).map renameApplyToLine) =
          renameApplyToLine l ++ '\n' :: joinLinesC ((l2 :: rest).map renameApplyToLine) := rfl
      rw [hj, hrhs]
      by_cases hp : "applyTo:".data.isPrefixOf l = true
      · have hlen8 : 8 ≤ l.length := by
          have := (List.isPrefixOf_iff_prefix.mp hp).length_le
          simpa using this
        rw [scanF_applyTo_line l n ('\n' :: joinLinesC (l2 :: rest))
          (by simp only [List.length_append, List.length_cons]; omega)
          (hnl l (by simp)) hp (happ l (by simp) hp)
          (Or.inr ⟨_, rfl⟩)]
        rw [scanF_newline false (n - 1) _ (by omega)]
        rw [ih (n - 1 - 1) (by omega) hnl' happ']
        unfold renameApplyToLine
        rw [if_pos hp]
      · have hpB : "applyTo:".data.isPrefixOf l = false := by
          cases hx : "applyTo:".data.isPrefixOf l
          · rfl
          · exact absurd hx hp
        rw [scanF_true_line l n ('\n' :: joinLinesC (l2 :: rest))
          (by simp only [List.length_append, List.length_cons]; omega)
          (hnl l (by simp))
          (by rw [isPrefixOf_append_lineEnd _ (by decide) _ _ (Or.inr ⟨_, rfl⟩)]
              exact hpB)]
        rw [scanF_newline l.isEmpty (n - l.length) _ (by omega)]
        rw [ih (n - l.length - 1) (by omega) hnl' happ']
        unfold renameApplyToLine
        rw [if_neg (by simp [hpB])]


theorem addImports_guard_eq_true (c label : String) (imps : List String)
    (hg : importsGuard c label imps = true) :
    addImportsToClaudeContent c label imps = c := by
  unfold addImportsToClaudeContent
  rw [if_pos hg]

/-- A second application of `addImportsToClaudeContent` with the same
category label and the same nonempty import list returns its own first
output unchanged, provided the label is nonempty and does not end in
whitespace (true of every topic label the CLI can produce from its
validated topic list). -/
theorem addImports_idem (c label : String) (imps : List String)
    (hne : imps ≠ []) (hlast : endsNonWs label.data = true) :
    addImportsToClaudeContent (addImportsToClaudeContent c label imps) label imps =
      addImportsToClaudeContent c label imps := by
  by_cases hg : importsGuard c label imps = true
  · have h1 := addImports_guard_eq_true c label imps hg
    rw [h1]
    exact h1
  · obtain ⟨imp0, rest, rfl⟩ : ∃ i r, imps = i :: r := by
      cases imps with
      | nil => exact absurd rfl hne
      | cons i r => exact ⟨i, r, rfl⟩
    obtain ⟨cn, hcn_last, hcn_ws⟩ :
        ∃ cn, label.data.getLast? = some cn ∧ jsWs cn = false := by
      unfold endsNonWs at hlast
      cases hl : label.data.getLast? with
      | none => rw [hl] at hlast; simp at hlast
      | some ch =>
        rw [hl] at hlast
        simp at hlast
        exact ⟨ch, rfl, hlast⟩
    obtain ⟨x0, xs0, hxs0⟩ : ∃ x xs, label.data = x :: xs := by
      cases hld : label.data with
      | nil => rw [hld] at hcn_last; simp at hcn_last
      | cons x xs => exact ⟨x, xs, rfl⟩
    -- the lower-cased category header as a character list
    have hdr_head : (('#' :: ' ' :: label.data).map Char.toLower).head? = some '#' := rfl
    have hdr_last :
        (('#' :: ' ' :: label.data).map Char.toLower).getLast? =
          some (Char.toLower cn) := by
      rw [List.getLast?_map, hxs0,
        show ('#' :: ' ' :: x0 :: xs0 : List Char).getLast? = (x0 :: xs0).getLast? from rfl,
        ← hxs0, hcn_last]
      rfl
    have hdr_ws_last : jsWs (Char.toLower cn) = false := by
      rw [jsWs_toLower]
      exact hcn_ws
    have hdr_ne : (('#' :: ' ' :: label.data).map Char.toLower) ≠ [] := by simp
    set out := addImportsToClaudeContent c label (imp0 :: rest) with hout_def
    -- the first-import component of the guard, shared by every branch
    have himp : ∀ u2 : String,
        out = u2 ++ joinWith "\n" (imp0 :: rest) ++ "\n" →
        includesStr (lowerStr out) (lowerStr imp0) = true := by
      intro u2 hu2
      apply decide_eq_true
      obtain ⟨jt, hjt⟩ := joinWith_head_prefix "\n" imp0 rest
      have hbase : imp0.data <:+: out.data := by
        rw [hu2]
        refine ⟨u2.data, jt ++ ['\n'], ?_⟩
        simp [strData_append, ← hjt, List.append_assoc]
      exact hbase.map Char.toLower
    by_cases hcx : includesStr (lowerStr c) (lowerStr ("# " ++ label)) = true
    · -- the header already occurs in the document
      have hinf : (('#' :: ' ' :: label.data).map Char.toLower) <:+:
          (c.data.map Char.toLower) := of_decide_eq_true hcx
      have htr : (('#' :: ' ' :: label.data).map Char.toLower) <:+:
          trimChars (c.data.map Char.toLower) :=
        infix_trimChars _ _ '#' (Char.toLower cn) hdr_head hdr_last (by decide)
          hdr_ws_last hinf
      have htr' : (('#' :: ' ' :: label.data).map Char.toLower) <:+:
          (trimChars c.data).map Char.toLower := by
        rw [← trimChars_map_toLower]
        exact htr
      have hlen : (trimStr c).data.length > 0 := by
        by_contra hl0
        have h0 : trimChars c.data = [] := by
          have := Nat.eq_zero_of_not_pos hl0
          exact List.length_eq_zero.mp this
        rw [h0] at htr'
        exact hdr_ne (List.eq_nil_of_infix_nil htr')
      have hout : out = (trimStr c ++ "\n\n") ++ joinWith "\n" (imp0 :: rest) ++ "\n" := by
        rw [hout_def]
        unfold addImportsToClaudeContent
        rw [if_neg hg]
        show (if includesStr (lowerStr c) (lowerStr ("# " ++ label))
            then (if (trimStr c).data.length > 0 then trimStr c ++ "\n\n" else trimStr c)
            else (if (trimStr c).data.length > 0 then trimStr c ++ "\n\n" else trimStr c) ++
              "# " ++ label ++ "\n\n") ++ joinWith "\n" (imp0 :: rest) ++ "\n" = _
        rw [if_pos hcx, if_pos hlen]
      have hheader : includesStr (lowerStr out) (lowerStr ("# " ++ label)) = true := by
        apply decide_eq_true
        show (('#' :: ' ' :: label.data).map Char.toLower) <:+: (out.data.map Char.toLower)
        have hdata : out.data = trimChars c.data ++
            (['\n', '\n'] ++ ((joinWith "\n" (imp0 :: rest)).data ++ ['\n'])) := by
          rw [hout]
          simp [strData_append, trimStr, strData_mk, List.append_assoc]
        rw [hdata, List.map_append]
        exact htr'.trans (List.prefix_append _ _).isInfix
      have hguard : importsGuard out label (imp0 :: rest) = true := by
        unfold importsGuard
        rw [hheader, List.any_cons, himp _ hout]
        rfl
      unfold addImportsToClaudeContent
      rw [if_pos hguard]
    · -- the header is appended by the first run
      have hout : out = ((if (trimStr c).data.length > 0 then trimStr c ++ "\n\n"
            else trimStr c) ++ "# " ++ label ++ "\n\n") ++
          joinWith "\n" (imp0 :: rest) ++ "\n" := by
        rw [hout_def]
        unfold addImportsToClaudeContent
        rw [if_neg hg]
        show (if includesStr (lowerStr c) (lowerStr ("# " ++ label))
            then (if (trimStr c).data.length > 0 then trimStr c ++ "\n\n" else trimStr c)
            else (if (trimStr c).data.length > 0 then trimStr c ++ "\n\n" else trimStr c) ++
              "# " ++ label ++ "\n\n") ++ joinWith "\n" (imp0 :: rest) ++ "\n" = _
        rw [if_neg hcx]
      have hheader : includesStr (lowerStr out) (lowerStr ("# " ++ label)) = true := by
        apply decide_eq_true
        show (('#' :: ' ' :: label.data).map Char.toLower) <:+: (out.data.map Char.toLower)
        have hbase : ('#' :: ' ' :: label.data) <:+: out.data := by
          rw [hout]
          refine ⟨(if (trimStr c).data.length > 0 then trimStr c ++ "\n\n"
            else trimStr c).data,
            ['\n', '\n'] ++ ((joinWith "\n" (imp0 :: rest)).data ++ ['\n']), ?_⟩
          simp [strData_append, List.append_assoc]
        exact hbase.map Char.toLower
      have hguard : importsGuard out label (imp0 :: rest) = true := by
        unfold importsGuard
        rw [hheader, List.any_cons, himp _ hout]
        rfl
      unfold addImportsToClaudeContent
      rw [if_pos hguard]

theorem firstObjAt_cons (config : List (String × JsVal)) (k : String) (ks : List String) :
    firstObjAt config (k :: ks) =
      match getKey config k with
      | some (.obj f) => f
      | _ => firstObjAt config ks := rfl

/-- C3: the merged document produced by `processMcpConfiguration`
preserves every top-level key of the existing document (a key other
than `mergeKey` keeps its value), replaces the `mergeKey` value with the
spread union of existing servers and template servers, whose
lookups realize exactly the union of server names with the template
definition winning on a name collision and the original
definitions surviving on disjoint names. -/
theorem mcpMerge_preserves_topLevel_and_unions_servers :
    (∀ tmpl E k k', k' ≠ k →
        getKey (mergeMcpConfigs tmpl E k) k' = getKey E k') ∧
    (∀ tmpl E k,
        getKey (mergeMcpConfigs tmpl E k) k =
          some (.obj (jsSpread (extractServers E k) (firstObjAt tmpl (keysToTry k))))) ∧
    (∀ es ts n, hasKeyB (jsSpread es ts) n = (hasKeyB es n || hasKeyB ts n)) ∧
    (∀ es ts n,
        getKey (jsSpread es ts) n =
          match getKey ts n with
          | some v => some v
          | none => getKey es n) := by
  refine ⟨?_, ?_, hasKeyB_jsSpread, getKey_jsSpread⟩
  · intro tmpl E k k' hne
    show getKey (jsSpread E [(k, _)]) k' = getKey E k'
    rw [getKey_jsSpread]
    simp [getKey, hne.symm]
  · intro tmpl E k
    show getKey (jsSpread E [(k, _)]) k = _
    rw [getKey_jsSpread]
    simp [getKey]

/-- Witness for C3 at concrete documents: the unrelated top-level key
`"other"` of the existing config survives the merge with its value. -/
theorem mcpMerge_preserves_topLevel_witness :
    getKey (mergeMcpConfigs [("mcpServers", .obj [("Snyk", .leaf "snykDef")])]
        [("servers", .obj [("Custom", .leaf "customDef")]), ("other", .leaf "otherVal")]
        "servers") "other" = some (.leaf "otherVal") := by
  rw [mcpMerge_preserves_topLevel_and_unions_servers.1 _ _ "servers" "other"
    (by decide)]
  rfl

/-- C4: template-server extraction first tries the adapter `mergeKey`
and falls back to the conventional `'mcpServers'` exactly when
`mergeKey` differs from it and the `mergeKey` entry is absent or not an
object (this is `specTemplateServers`, in the wording of the spec); in
particular a template keyed `'mcpServers'` merged with
`mergeKey = "servers"` into an existing config with a custom server
yields the servers map containing both the custom server and the
server of the template. -/
theorem templateServers_fallback_and_scenario :
    (∀ tmpl k, firstObjAt tmpl (keysToTry k) = specTemplateServers tmpl k) ∧
    mergeMcpConfigs [("mcpServers", .obj [("Snyk", .leaf "snykDef")])]
        [("servers", .obj [("Custom", .leaf "customDef")])] "servers" =
      [("servers", .obj [("Custom", .leaf "customDef"), ("Snyk", .leaf "snykDef")])] := by
  constructor
  · intro tmpl k
    by_cases hk : k = "mcpServers"
    · subst hk
      rw [show keysToTry "mcpServers" = ["mcpServers"] from rfl, firstObjAt_cons]
      cases hg : getKey tmpl "mcpServers" with
      | none => simp [specTemplateServers, hg, firstObjAt]
      | some v =>
        cases v with
        | obj f => simp [specTemplateServers, hg]
        | leaf r => simp [specTemplateServers, hg, firstObjAt]
    · rw [show keysToTry k = [k, "mcpServers"] by simp [keysToTry, hk], firstObjAt_cons]
      cases hg : getKey tmpl k with
      | none =>
        rw [firstObjAt_cons]
        cases hg2 : getKey tmpl "mcpServers" with
        | none => simp [specTemplateServers, hg, hg2, hk, firstObjAt]
        | some v2 =>
          cases v2 with
          | obj f => simp [specTemplateServers, hg, hg2, hk]
          | leaf r => simp [specTemplateServers, hg, hg2, hk, firstObjAt]
      | some v =>
        cases v with
        | obj f => simp [specTemplateServers, hg]
        | leaf r =>
          rw [firstObjAt_cons]
          cases hg2 : getKey tmpl "mcpServers" with
          | none => simp [specTemplateServers, hg, hg2, hk, firstObjAt]
          | some v2 =>
            cases v2 with
            | obj f => simp [specTemplateServers, hg, hg2, hk]
            | leaf r2 => simp [specTemplateServers, hg, hg2, hk, firstObjAt]
  · rfl

/-- C1 counterexample: with category label `"x "` — a topic identifier
ending in a space, passed through unchanged because it is not in
`TOPIC_LABELS` — and an existing main-context file `"# x "`, the trim
step of the first run destroys the only occurrence of the header
`"# x "`, so the second identical run appends a duplicate category
heading and a duplicate import line instead of leaving the file
unchanged. -/
theorem claude_merge_not_idempotent_counterexample :
    (addImportsToClaudeContent
        (addImportsToClaudeContent "# x " "x " ["- @./.claude/rules/a.md"])
        "x " ["- @./.claude/rules/a.md"] ==
      addImportsToClaudeContent "# x " "x " ["- @./.claude/rules/a.md"]) = false := by
  decide

/-- C1 (amended): a second identical run changes neither the
main-context document nor the merged JSON document, provided (for the
main-context merge) the import list is nonempty — guaranteed by the
early return of the caller when there are no template files — and the
category label is nonempty and does not end in whitespace (true of all
CLI topic labels), and (for the JSON merge) the server names of the template
are duplicate-free — guaranteed by `JSON.parse`. -/
theorem processTwice_idempotent :
    (∀ (c label : String) (imps : List String), imps ≠ [] →
        endsNonWs label.data = true →
        addImportsToClaudeContent (addImportsToClaudeContent c label imps) label imps =
          addImportsToClaudeContent c label imps) ∧
    (∀ (tmpl E : List (String × JsVal)) (k : String),
        ((firstObjAt tmpl (keysToTry k)).map Prod.fst).Nodup →
        mergeMcpConfigs tmpl (mergeMcpConfigs tmpl E k) k = mergeMcpConfigs tmpl E k) :=
  ⟨addImports_idem, mergeMcpConfigs_idem⟩

/-- Witness for C1 (amended) at concrete inputs: scaffolding the
`testing` topic twice into an initially empty CLAUDE.md, and merging the
Snyk MCP template twice into a config with one custom server. -/
theorem processTwice_idempotent_witness :
    addImportsToClaudeContent
        (addImportsToClaudeContent "" "Testing" ["- @./.claude/rules/testing.md"])
        "Testing" ["- @./.claude/rules/testing.md"] =
      addImportsToClaudeContent "" "Testing" ["- @./.claude/rules/testing.md"] ∧
    mergeMcpConfigs [("mcpServers", .obj [("Snyk", .leaf "snykDef")])]
        (mergeMcpConfigs [("mcpServers", .obj [("Snyk", .leaf "snykDef")])]
          [("servers", .obj [("Custom", .leaf "customDef")])] "servers")
        "servers" =
      mergeMcpConfigs [("mcpServers", .obj [("Snyk", .leaf "snykDef")])]
        [("servers", .obj [("Custom", .leaf "customDef")])] "servers" :=
  ⟨processTwice_idempotent.1 "" "Testing" ["- @./.claude/rules/testing.md"]
      (by simp) (by decide),
   processTwice_idempotent.2 _ _ "servers" (by decide)⟩

/-- C2 counterexample: the candidate `"../bb/x.md"` contains a `../`
traversal sequence, yet `buildSafePath` over base `/a/b` succeeds and
returns `/a/bb/x.md` — a path outside the base directory `/a/b` —
because the validation is a string-prefix check and `/a/bb` shares the
prefix `/a/b`. -/
theorem path_traversal_escape_counterexample :
    includesStr "../bb/x.md" "../" = true ∧
    buildSafePath "/cwd" "../bb/x.md" "/a/b" = Except.ok "/a/bb/x.md" ∧
    inDirectoryB "/a/b" "/a/bb/x.md" = false := by
  refine ⟨by decide, rfl, by decide⟩

/-- C2 (amended): whenever `validateTargetPath` (hence `buildSafePath`)
returns a path, the resolved absolute result has the base directory as
a string prefix — that, not directory-tree containment, is the
guarantee the check enforces; candidates whose resolved form escapes
even the string prefix are rejected, as the percent-encoded traversal
`%2e%2e%2f...` shows. -/
theorem validateTargetPath_prefix_guarantee :
    (∀ cwd targetPath base r, validateTargetPath cwd targetPath base = Except.ok r →
        strStartsWith r base = true) ∧
    (∀ cwd cand base r, buildSafePath cwd cand base = Except.ok r →
        strStartsWith r base = true) ∧
    buildSafePath "/cwd" "%2e%2e%2fetc%2fpasswd" "/a/b" =
      Except.error "Invalid target path: /a/b/%2e%2e%2fetc%2fpasswd" := by
  have h1 : ∀ cwd targetPath base r,
      validateTargetPath cwd targetPath base = Except.ok r →
      strStartsWith r base = true := by
    intro cwd t b r h
    unfold validateTargetPath at h
    split at h
    · exact absurd h (by simp)
    · split at h
      · rename_i hcond
        injection h with hX
        rw [← hX]
        exact hcond
      · exact absurd h (by simp)
  exact ⟨h1, fun cwd cand b r h => h1 _ _ _ _ h, rfl⟩

/-- Witness for C2 (amended): a plain filename passes validation and
the returned path carries the base as a prefix. -/
theorem validateTargetPath_prefix_guarantee_witness :
    strStartsWith "/a/b/notes.md" "/a/b" = true :=
  validateTargetPath_prefix_guarantee.2.1 "/cwd" "notes.md" "/a/b" "/a/b/notes.md" rfl

theorem splitLinesC_head (cs : List Char) :
    ∃ t, splitLinesC cs = cs.takeWhile (fun c => c != '\n') :: t := by
  induction cs with
  | nil => exact ⟨[], rfl⟩
  | cons c r ih =>
    by_cases hc : c = '\n'
    · subst hc
      exact ⟨splitLinesC r, rfl⟩
    · obtain ⟨t, ht⟩ := ih
      refine ⟨t, ?_⟩
      have hne : (c != '\n') = true := by simp [hc]
      rw [List.takeWhile_cons, if_pos hne]
      simp only [splitLinesC, hc, ht]

theorem extractFrontmatter_eq_none (content : String)
    (h : strStartsWith content "---" = false) :
    extractFrontmatter content = none := by
  obtain ⟨t, ht⟩ := splitLinesC_head content.data
  have hne : ¬ (List.takeWhile (fun c => c != '\n') content.data = "---".data) := by
    intro heq
    have hpre : "---".data <+: content.data := by
      rw [← heq]
      exact List.takeWhile_prefix _
    have hT : strStartsWith content "---" = true := List.isPrefixOf_iff_prefix.mpr hpre
    rw [hT] at h
    exact absurd h (by simp)
  simp [extractFrontmatter, ht, hne]

/-- C6: the frontmatter transformations are total functions and fall
back to the original document byte-for-byte whenever no metadata block
starts at position zero — for the Cursor adapter function `processFrontmatter`
whenever no frontmatter node is recognized (its parser is total, so the
catch arm never fires), and for the Gemini adapter function `stripFrontmatter`
whenever the anchored regex finds no opening fence — including
documents where `---` occurs later in the body. -/
theorem frontmatter_fallback_returns_original :
    (∀ content, extractFrontmatter content = none →
        processFrontmatter content = content) ∧
    (∀ content, strStartsWith content "---" = false →
        processFrontmatter content = content) ∧
    (∀ content, strStartsWith content "---" = false →
        stripFrontmatter content = content) ∧
    processFrontmatter "body text\n\n---\n\nmore" = "body text\n\n---\n\nmore" ∧
    stripFrontmatter "body text\n\n---\nfoo: 1\n---\nmore" =
      "body text\n\n---\nfoo: 1\n---\nmore" := by
  have part1 : ∀ content, extractFrontmatter content = none →
      processFrontmatter content = content := by
    intro c h
    simp [processFrontmatter, h]
  refine ⟨part1, fun c h => part1 c (extractFrontmatter_eq_none c h),
    fun c h => ?_, rfl, rfl⟩
  have hb : ("---".data.isPrefixOf c.data) = false := h
  simp [stripFrontmatter, hb]

/-- Witness for C6: a document whose `---` appears only mid-body is
returned unchanged by both transformations. -/
theorem frontmatter_fallback_returns_original_witness :
    processFrontmatter "plain\n---\nlater" = "plain\n---\nlater" ∧
    stripFrontmatter "# Title\nbody" = "# Title\nbody" :=
  ⟨frontmatter_fallback_returns_original.2.1 "plain\n---\nlater" (by decide),
   frontmatter_fallback_returns_original.2.2.1 "# Title\nbody" (by decide)⟩

/-- C5 counterexample: in the frontmatter block `applyTo:\nfoo: bar`
— an `applyTo` field with an empty value followed by the sibling field
`foo` — the greedy `\s*` of the rename regex eats the newline and
`(.+)` captures the next line, so the rename destroys the sibling
field: `foo: bar` stops being a field of the metadata block and is
absorbed into the value of the renamed field. -/
theorem transformFrontmatter_empty_applyTo_counterexample :
    transformFrontmatterFields "applyTo:\nfoo: bar" = "globs: foo: bar" ∧
    includesStr (transformFrontmatterFields "applyTo:\nfoo: bar") "\nfoo: bar" = false ∧
    processFrontmatter "---\napplyTo:\nfoo: bar\n---\nbody" =
      "---\nglobs: foo: bar\n---\nbody" :=
  ⟨rfl, by decide, rfl⟩

/-- C5 (amended): on a metadata block whose lines contain no stray
carriage returns and whose every `applyTo:` line carries a
non-whitespace value on the same line, the rename transformation equals
the per-line rename: every other line — hence every other field, with
nested or multi-line (indented) values — is byte-preserved, and the
`applyTo` value is carried over to the `globs` key. -/
theorem transformFrontmatter_linewise_rename (L : List (List Char))
    (hnl : ∀ l ∈ L, ∀ c ∈ l, lineTerm c = false)
    (happ : ∀ l ∈ L, "applyTo:".data.isPrefixOf l = true →
        (l.drop 8).dropWhile jsWs ≠ []) :
    transformFrontmatterFields (String.mk (joinLinesC L)) =
      String.mk (joinLinesC (L.map renameApplyToLine)) := by
  unfold transformFrontmatterFields
  exact congrArg String.mk
    (scanF_linewise L (String.mk (joinLinesC L)).data.length (le_refl _) hnl happ)

/-- Witness for C5 (amended): a two-field block. -/
theorem transformFrontmatter_linewise_rename_witness :
    transformFrontmatterFields "applyTo: x\nfoo: bar" = "globs: x\nfoo: bar" :=
  transformFrontmatter_linewise_rename ["applyTo: x".data, "foo: bar".data]
    (by decide) (by decide)

theorem copyTemplateFilesM_goods (fs : String → FsEntry)
    (cwd srcDir tgtDir sfx : String) (wof : String → String × String) :
    ∀ (goods restfiles : List String) (ws : List (String × String)) (warns : List String),
    (∀ n ∈ goods, copyTemplateFileM fs cwd (pathJoin srcDir n) tgtDir tgtDir sfx =
        Except.ok ([wof n], [])) →
    copyTemplateFilesM fs cwd srcDir tgtDir sfx restfiles = Except.ok (ws, warns) →
    copyTemplateFilesM fs cwd srcDir tgtDir sfx (goods ++ restfiles) =
      Except.ok (goods.map wof ++ ws, warns) := by
  intro goods
  induction goods with
  | nil =>
    intro restfiles ws warns _ h
    simpa using h
  | cons n gs ih =>
    intro restfiles ws warns hg hrest
    have h1 := hg n (by simp)
    have h2 := ih restfiles ws warns (fun x hx => hg x (by simp [hx])) hrest
    show copyTemplateFilesM fs cwd srcDir tgtDir sfx (n :: (gs ++ restfiles)) = _
    unfold copyTemplateFilesM
    rw [h1, h2]
    rfl

/-- C7: a batch copy over a listing with one entry whose `stat` or
read fails — placed anywhere among the good entries — writes exactly
the files of the good entries and emits exactly one warning naming the
failing file; the per-file failure is caught inside the loop and never
aborts the batch. -/
theorem copy_batch_partial_failure_isolation
    (fs : String → FsEntry) (cwd srcDir tgtDir sfx : String)
    (goods1 goods2 : List String) (badName dbad : String)
    (wof : String → String × String)
    (hgood : ∀ n ∈ goods1 ++ goods2,
        copyTemplateFileM fs cwd (pathJoin srcDir n) tgtDir tgtDir sfx =
          Except.ok ([wof n], []))
    (hdec : decodeURIComponent (pathJoin srcDir badName) = some dbad)
    (hbad : fs (pathJoin (pathDirname (pathJoin srcDir badName))
          (pathBasename (pathNormalize dbad))) = FsEntry.absent ∨
        ∃ cont r, fs (pathJoin (pathDirname (pathJoin srcDir badName))
          (pathBasename (pathNormalize dbad))) = FsEntry.file cont false ∧
          validateTargetPath cwd (pathJoin tgtDir
            (generateTargetFileName (pathBasename (pathNormalize dbad)) sfx)) tgtDir =
            Except.ok r) :
    copyTemplateFilesM fs cwd srcDir tgtDir sfx (goods1 ++ badName :: goods2) =
      Except.ok (goods1.map wof ++ goods2.map wof,
        [skipWarn (pathBasename (pathNormalize dbad))]) ∧
    (goods1.map wof ++ goods2.map wof).length = goods1.length + goods2.length := by
  have hbadeq : copyTemplateFileM fs cwd (pathJoin srcDir badName) tgtDir tgtDir sfx =
      Except.ok ([], [skipWarn (pathBasename (pathNormalize dbad))]) := by
    rcases hbad with h | ⟨cont, r, hfs, hval⟩
    · simp [copyTemplateFileM, hdec, h]
    · simp [copyTemplateFileM, hdec, hfs, hval]
  have hg2 : copyTemplateFilesM fs cwd srcDir tgtDir sfx goods2 =
      Except.ok (goods2.map wof, []) := by
    have := copyTemplateFilesM_goods fs cwd srcDir tgtDir sfx wof goods2 [] [] []
      (fun x hx => hgood x (by simp [hx])) rfl
    simpa using this
  have hmid : copyTemplateFilesM fs cwd srcDir tgtDir sfx (badName :: goods2) =
      Except.ok (goods2.map wof, [skipWarn (pathBasename (pathNormalize dbad))]) := by
    unfold copyTemplateFilesM
    rw [hbadeq, hg2]
    rfl
  refine ⟨?_, by simp⟩
  have := copyTemplateFilesM_goods fs cwd srcDir tgtDir sfx wof goods1 (badName :: goods2)
    (goods2.map wof) [skipWarn (pathBasename (pathNormalize dbad))]
    (fun x hx => hgood x (by simp [hx])) hmid
  exact this

/-- Witness for C7: the three-entry fixture (`a.md` readable, `bad.md`
missing, `b.md` readable) produces exactly the two writes and the one
warning naming `bad.md`. -/
theorem copy_batch_partial_failure_isolation_witness :
    copyTemplateFilesM wfs "/cwd" "/src" "/t" ".mdc" (["a.md"] ++ "bad.md" :: ["b.md"]) =
      Except.ok ([("/t/a.mdc", "A"), ("/t/b.mdc", "B")],
        ["Skipping file bad.md: error"]) ∧
    ((["a.md"] : List String).map wofFn ++ (["b.md"] : List String).map wofFn).length =
      1 + 1 := by
  have h := copy_batch_partial_failure_isolation wfs "/cwd" "/src" "/t" ".mdc"
    ["a.md"] ["b.md"] "bad.md" "/src/bad.md" wofFn
    (by
      intro n hn
      simp only [List.cons_append, List.nil_append, List.mem_cons,
        List.not_mem_nil, or_false] at hn
      rcases hn with rfl | rfl
      · rfl
      · rfl)
    rfl (Or.inl rfl)
  exact ⟨h.1, h.2⟩

/-- C8: when any of the three required fields of the scaffold
instructions is empty, `scaffoldAiAppInstructions` fails with its
descriptive message before any filesystem mutation: the operation list
is empty — no directory created, no file written. -/
theorem scaffold_rejects_empty_fields
    (distDir : String) (templateDirOk : String → Bool) (listDir : String → List String)
    (fs : String → FsEntry) (cwd aiApp codeLanguage codeTopic : String)
    (h : aiApp = "" ∨ codeLanguage = "" ∨ codeTopic = "") :
    scaffoldAiAppInstructions distDir templateDirOk listDir fs cwd
        aiApp codeLanguage codeTopic =
      ([], some "Scaffold instructions must include aiApp and all other template choices.") := by
  unfold scaffoldAiAppInstructions
  rw [if_pos h]

/-- Witness for C8: an empty `aiApp` aborts with the message and no
operations. -/
theorem scaffold_rejects_empty_fields_witness :
    scaffoldAiAppInstructions "/dist" (fun _ => true) (fun _ => [])
        (fun _ => FsEntry.absent) "/cwd" "" "nodejs" "testing" =
      ([], some "Scaffold instructions must include aiApp and all other template choices.") :=
  scaffold_rejects_empty_fields "/dist" (fun _ => true) (fun _ => [])
    (fun _ => FsEntry.absent) "/cwd" "" "nodejs" "testing" (Or.inl rfl)

/-- C9 counterexample: the unsupported-target error message is
`AI App "<id>" is not supported.` — it does not list the valid target
identifiers (none of `github-copilot`, `cursor`, `claude-code` occurs
in it). -/
theorem getAdapter_error_lists_no_ids_counterexample :
    getAdapter "unsupported-app" =
      Except.error "AI App \"unsupported-app\" is not supported." ∧
    includesStr "AI App \"unsupported-app\" is not supported." "github-copilot" = false ∧
    includesStr "AI App \"unsupported-app\" is not supported." "cursor" = false ∧
    includesStr "AI App \"unsupported-app\" is not supported." "claude-code" = false :=
  ⟨rfl, by decide, by decide, by decide⟩

/-- C9 (amended): for every identifier not in the registry,
`getAdapter` fails with the clear unsupported-target error naming the
requested identifier (the message does not list the valid ids — those
are available separately via `getSupportedAiApps`); every registered
identifier returns its adapter. -/
theorem getAdapter_unsupported_behavior :
    (∀ aiApp, adapters.lookup aiApp = none →
        getAdapter aiApp = Except.error ("AI App \"" ++ aiApp ++ "\" is not supported.")) ∧
    (∀ aiApp a, adapters.lookup aiApp = some a → getAdapter aiApp = Except.ok a) ∧
    getSupportedAiApps = ["github-copilot", "cursor", "claude-code"] := by
  refine ⟨?_, ?_, rfl⟩
  · intro aiApp h
    simp [getAdapter, h]
  · intro aiApp a h
    simp [getAdapter, h]

/-- Witness for C9 (amended): an unregistered id fails with the
message, a registered one resolves. -/
theorem getAdapter_unsupported_behavior_witness :
    getAdapter "nope" = Except.error ("AI App \"" ++ "nope" ++ "\" is not supported.") ∧
    getAdapter "cursor" = Except.ok AdapterId.cursor :=
  ⟨getAdapter_unsupported_behavior.1 "nope" rfl,
   getAdapter_unsupported_behavior.2.1 "cursor" AdapterId.cursor rfl⟩

/-- C10: neither `processMcpConfiguration` nor
`processCommandsConfiguration` uses its `resolvedTargetDirectory`
argument — the output location comes from the working directory joined
with the configured relative path of the adapter — so the same invocation
from two different working directories writes to two different
locations. -/
theorem processConfigs_use_cwd_not_targetDir :
    (∀ cwd cfg readJson tmplDir td td',
        processMcpConfiguration cwd cfg readJson tmplDir td =
          processMcpConfiguration cwd cfg readJson tmplDir td') ∧
    (∀ cwd ccfg listDir statF readF cmdDir td td',
        processCommandsConfiguration cwd ccfg listDir statF readF cmdDir td =
          processCommandsConfiguration cwd ccfg listDir statF readF cmdDir td') ∧
    (targetMcpFile "/home/alice/proj" ⟨".vscode/mcp.json", some "servers"⟩ ==
      targetMcpFile "/home/bob/proj" ⟨".vscode/mcp.json", some "servers"⟩) = false ∧
    (pathResolveOne "/home/alice/proj" ".claude/commands" ==
      pathResolveOne "/home/bob/proj" ".claude/commands") = false :=
  ⟨fun _ _ _ _ _ _ => rfl, fun _ _ _ _ _ _ _ _ => rfl, by decide, by decide⟩

end AgentRules
